import Mathlib

/-!
Shallow embedding of the `slotmachine` conference scheduler
(`slotmachine/__init__.py`) and proofs about it.

Modelling conventions:
* datetimes are integers (seconds since an arbitrary epoch); the difference
  of two datetimes in seconds is plain integer subtraction;
* Python `math.ceil(x / y)` on exact integer inputs is modelled by exact
  rational ceiling division (`intCeilDiv`, `ceilDivNat`);
* slots are integers (`ℤ`), identifiers are naturals;
* a MILP 0/1 variable assignment is a function giving each indexed variable
  family its value; a linear constraint is data (name, coefficient pairs,
  sense, right-hand side) and `LinConstr.satisfied` evaluates it;
* Python lists are Lean lists; a Python `dict` built by insertion is an
  association list (later bindings shadow earlier ones, hence the
  `.reverse` where it matters);
* Python object identity (dicts shared between the caller's descriptor and
  the returned list) is modelled with an explicit heap: addresses `ℕ`
  mapped to talk-dictionary records.
-/

namespace SlotMachine

/-- `SLOT_INCREMENT = 5`: minutes of granularity (class attribute). -/
def SLOT_INCREMENT : ℕ := 5

/-- `BIGNUM = 2**32` (class attribute). -/
def BIGNUM : ℕ := 2 ^ 32

/-- Exact ceiling division of integers (`math.ceil(a / b)` for `b > 0`),
via `⌈a/b⌉ = -⌊-a/b⌋`. -/
def intCeilDiv (a b : ℤ) : ℤ := -((-a).fdiv b)

/-- Exact ceiling division on naturals (`math.ceil(a / b)` for `b > 0`). -/
def ceilDivNat (a b : ℕ) : ℕ := (a + b - 1) / b

/-- Python `range(a, b)` as a list of integers. -/
def pyRange (a b : ℤ) : List ℤ := (List.range (b - a).toNat).map (fun (i : ℕ) => a + (i : ℤ))

/-- `SlotMachine.num_slots(start_time, end_time)`:
`ceil((end_time - start_time).total_seconds() / 60 / SLOT_INCREMENT)`. -/
def num_slots (start_time end_time : ℤ) : ℤ :=
  intCeilDiv (end_time - start_time) (60 * SLOT_INCREMENT)

/-- `SlotMachine.calculate_slots(event_start, range_start, range_end, spacing_slots)`:
`range(slot_start, slot_start + num_slots(range_start, range_end) + spacing_slots)`
with `slot_start = ceil((range_start - event_start).total_seconds() / 60 / SLOT_INCREMENT)`. -/
def calculate_slots (event_start range_start range_end : ℤ) (spacing_slots : ℤ) : List ℤ :=
  let slot_start := intCeilDiv (range_start - event_start) (60 * SLOT_INCREMENT)
  pyRange slot_start (slot_start + num_slots range_start range_end + spacing_slots)

/-- `SlotMachine.calc_time(event_start, slots)`:
`event_start + slots * SLOT_INCREMENT` minutes, in seconds. -/
def calc_time (event_start : ℤ) (slots : ℤ) : ℤ :=
  event_start + slots * (SLOT_INCREMENT : ℤ) * 60

/-- Membership in a Python integer range. -/
theorem mem_pyRange {a b s : ℤ} : s ∈ pyRange a b ↔ a ≤ s ∧ s < b := by
  unfold pyRange
  simp only [List.mem_map, List.mem_range]
  constructor
  · rintro ⟨i, hi, rfl⟩
    have h1 : (i : ℤ) < b - a := Int.lt_toNat.mp hi
    have h2 : (0 : ℤ) ≤ (i : ℤ) := Int.natCast_nonneg i
    exact ⟨by omega, by omega⟩
  · rintro ⟨h1, h2⟩
    refine ⟨(s - a).toNat, Int.lt_toNat.mpr ?_, ?_⟩
    · have h3 : ((s - a).toNat : ℤ) = s - a := Int.toNat_of_nonneg (by omega)
      omega
    · have h3 : ((s - a).toNat : ℤ) = s - a := Int.toNat_of_nonneg (by omega)
      omega

/-- The `Talk` namedtuple (fields as in the source; slot values are `ℤ`,
identifiers `ℕ`; `similarities` is an association list modelling the dict). -/
structure Talk where
  id : ℕ
  duration : ℕ
  durations : List ℕ := []
  venues : List ℕ := []
  speakers : List ℕ := []
  preferred_venues : List ℕ := []
  preferred_slots : List ℤ := []
  slots : List ℤ := []
  plenary : ℕ := 0
  irl_only : ℕ := 0
  prereqs : List ℕ := []
  rest : ℕ := 0
  languages : List ℕ := [0]
  before_rest : ℕ := 0
  after_rest : ℕ := 0
  meetup : ℕ := 0
  invite_only : ℕ := 0
  similarities : List (ℕ × ℕ) := []
deriving DecidableEq, Repr

/-- The `Person` namedtuple (fields as in the source; `preferences` is an
association list modelling the dict). -/
structure Person where
  id : ℕ
  name : String
  preferred_slots : List ℤ := []
  slots : List ℤ := []
  irl : Bool := false
  preferences : List (ℕ × ℕ) := []
  languages : List ℕ := [0]
  attending : ℕ := 0
deriving DecidableEq, Repr

/-- The `Venue` namedtuple. -/
structure Venue where
  id : ℕ
  name : String
  capacity : ℕ
  slots : List ℤ := []
deriving DecidableEq, Repr

/-- Left-hand side of the `PLENARY_EXCLUSIVITY_{slot}` constraint, exactly as
assembled in `get_problem`:
`lpSum((active(slot, t.id, vid) * t.plenary * BIGNUM) + active(slot, t.id, vid)
for t in talks for vid in venue_ids)`. -/
def plenaryLhs (talks : List Talk) (venue_ids : List ℕ)
    (ACTIVE : ℤ → ℕ → ℕ → ℕ) (slot : ℤ) : ℕ :=
  (talks.map (fun t =>
    (venue_ids.map (fun vid =>
      ACTIVE slot t.id vid * t.plenary * BIGNUM + ACTIVE slot t.id vid)).sum)).sum

/-- The same sum written as in the spec: `Σ_{t,v} (plenary(t)·M + 1)·ACTIVE(s,t,v)`. -/
def plenaryLhsSpecForm (talks : List Talk) (venue_ids : List ℕ)
    (ACTIVE : ℤ → ℕ → ℕ → ℕ) (slot : ℤ) : ℕ :=
  (talks.map (fun t =>
    (venue_ids.map (fun vid =>
      (t.plenary * BIGNUM + 1) * ACTIVE slot t.id vid)).sum)).sum

/-- The `PLENARY_EXCLUSIVITY_{slot}` constraint: `plenaryLhs ≤ BIGNUM + 1`. -/
def plenaryConstraint (talks : List Talk) (venue_ids : List ℕ)
    (ACTIVE : ℤ → ℕ → ℕ → ℕ) (slot : ℤ) : Prop :=
  plenaryLhs talks venue_ids ACTIVE slot ≤ BIGNUM + 1

theorem sum_map_le_of_mem {α : Type} (l : List α) (f : α → ℕ) {a : α} (h : a ∈ l) :
    f a ≤ (l.map f).sum := by
  induction l with
  | nil => cases h
  | cons x xs ih =>
    rcases List.mem_cons.mp h with rfl | hmem
    · simp only [List.map_cons, List.sum_cons]
      exact Nat.le_add_right _ _
    · have := ih hmem
      simp only [List.map_cons, List.sum_cons]
      omega

theorem sum_map_pair_le {α : Type} (l : List α) (f : α → ℕ) {a b : α}
    (hab : a ≠ b) (ha : a ∈ l) (hb : b ∈ l) :
    f a + f b ≤ (l.map f).sum := by
  induction l with
  | nil => cases ha
  | cons x xs ih =>
    rcases List.mem_cons.mp ha with rfl | hamem
    · rcases List.mem_cons.mp hb with rfl | hbmem
      · exact absurd rfl hab
      · simpa using Nat.add_le_add_left (sum_map_le_of_mem xs f hbmem) (f a)
    · rcases List.mem_cons.mp hb with rfl | hbmem
      · have := sum_map_le_of_mem xs f hamem
        simp only [List.map_cons, List.sum_cons]
        omega
      · have := ih hamem hbmem
        simp only [List.map_cons, List.sum_cons]
        omega

/-- C1: for every assignment satisfying the `PLENARY_EXCLUSIVITY_{slot}`
constraint (as in every Optimal solution) with 0/1 `ACTIVE` values, if a
plenary talk is active at `slot` in some venue then no other talk is active
at `slot` in any venue; moreover the constraint's left-hand side is exactly
the spec's `Σ_{t,v} (plenary(t)·M + 1)·ACTIVE(s,t,v)` with `M = 2^32`. -/
theorem plenary_constraint_exclusivity
    (talks : List Talk) (venue_ids : List ℕ) (ACTIVE : ℤ → ℕ → ℕ → ℕ) (slot : ℤ)
    (hbin : ∀ t ∈ talks, ∀ v ∈ venue_ids, ACTIVE slot t.id v ≤ 1)
    (hc : plenaryConstraint talks venue_ids ACTIVE slot)
    (t0 : Talk) (ht0 : t0 ∈ talks) (hpl : t0.plenary = 1)
    (v0 : ℕ) (hv0 : v0 ∈ venue_ids) (hact : ACTIVE slot t0.id v0 = 1) :
    (∀ t ∈ talks, t.id ≠ t0.id → ∀ v ∈ venue_ids, ACTIVE slot t.id v = 0)
    ∧ plenaryLhs talks venue_ids ACTIVE slot
        = plenaryLhsSpecForm talks venue_ids ACTIVE slot := by
  constructor
  · intro t ht hne v hv
    by_contra hOne
    have h1 : ACTIVE slot t.id v ≤ 1 := hbin t ht v hv
    have h2 : ACTIVE slot t.id v = 1 := by omega
    have hf0 : BIGNUM + 1
        ≤ (venue_ids.map (fun vid =>
            ACTIVE slot t0.id vid * t0.plenary * BIGNUM + ACTIVE slot t0.id vid)).sum := by
      have h := sum_map_le_of_mem venue_ids
        (fun vid => ACTIVE slot t0.id vid * t0.plenary * BIGNUM + ACTIVE slot t0.id vid) hv0
      dsimp only at h
      have he : ACTIVE slot t0.id v0 * t0.plenary * BIGNUM + ACTIVE slot t0.id v0
          = BIGNUM + 1 := by
        rw [hact, hpl]; ring
      omega
    have hft : 1
        ≤ (venue_ids.map (fun vid =>
            ACTIVE slot t.id vid * t.plenary * BIGNUM + ACTIVE slot t.id vid)).sum := by
      have h := sum_map_le_of_mem venue_ids
        (fun vid => ACTIVE slot t.id vid * t.plenary * BIGNUM + ACTIVE slot t.id vid) hv
      dsimp only at h
      have he : 1 ≤ ACTIVE slot t.id v * t.plenary * BIGNUM + ACTIVE slot t.id v := by
        rw [h2]; omega
      omega
    have hne' : t ≠ t0 := fun h => hne (h ▸ rfl)
    have hpair := sum_map_pair_le talks
      (fun tt => (venue_ids.map (fun vid =>
        ACTIVE slot tt.id vid * tt.plenary * BIGNUM + ACTIVE slot tt.id vid)).sum)
      hne' ht ht0
    dsimp only at hpair
    have hmain : (talks.map (fun tt => (venue_ids.map (fun vid =>
        ACTIVE slot tt.id vid * tt.plenary * BIGNUM + ACTIVE slot tt.id vid)).sum)).sum
        ≤ BIGNUM + 1 := hc
    omega
  · unfold plenaryLhs plenaryLhsSpecForm
    refine congrArg List.sum (List.map_congr_left (fun t _ => ?_))
    refine congrArg List.sum (List.map_congr_left (fun v _ => ?_))
    ring

/-- Concrete instance of `plenary_constraint_exclusivity`: two talks, talk 1
plenary and active at slot 0 in venue 1; the constraint forces talk 2 off. -/
theorem plenary_constraint_exclusivity_witness :
    (∀ t ∈ [({ id := 1, duration := 1, plenary := 1 } : Talk),
            ({ id := 2, duration := 1 } : Talk)],
        t.id ≠ (1 : ℕ) → ∀ v ∈ [1], (fun (s : ℤ) (tid vid : ℕ) =>
          if s = 0 ∧ tid = 1 ∧ vid = 1 then 1 else 0) 0 t.id v = 0)
    ∧ plenaryLhs [({ id := 1, duration := 1, plenary := 1 } : Talk),
                  ({ id := 2, duration := 1 } : Talk)] [1]
        (fun (s : ℤ) (tid vid : ℕ) => if s = 0 ∧ tid = 1 ∧ vid = 1 then 1 else 0) 0
      = plenaryLhsSpecForm [({ id := 1, duration := 1, plenary := 1 } : Talk),
                  ({ id := 2, duration := 1 } : Talk)] [1]
        (fun (s : ℤ) (tid vid : ℕ) => if s = 0 ∧ tid = 1 ∧ vid = 1 then 1 else 0) 0 := by
  have h := plenary_constraint_exclusivity
    [({ id := 1, duration := 1, plenary := 1 } : Talk), ({ id := 2, duration := 1 } : Talk)]
    [1] (fun (s : ℤ) (tid vid : ℕ) => if s = 0 ∧ tid = 1 ∧ vid = 1 then 1 else 0) 0
    (by decide) (by unfold plenaryConstraint plenaryLhs; decide)
    ({ id := 1, duration := 1, plenary := 1 } : Talk) (by decide) (by decide)
    1 (by decide) (by decide)
  exact h

/-- C7: `calculate_slots(event_start, range_start, range_end, spacing)` is the
half-open integer interval
`[slot_start, slot_start + num_slots(range_start, range_end) + spacing)` with
`slot_start = ceil((range_start - event_start).seconds / 300)`. -/
theorem calculate_slots_interval
    (event_start range_start range_end spacing : ℤ)
    (_h1 : event_start ≤ range_start) (_h2 : range_start < range_end)
    (_h3 : 0 ≤ spacing) (s : ℤ) :
    s ∈ calculate_slots event_start range_start range_end spacing ↔
      (intCeilDiv (range_start - event_start) 300 ≤ s
        ∧ s < intCeilDiv (range_start - event_start) 300
              + num_slots range_start range_end + spacing) := by
  unfold calculate_slots
  rw [mem_pyRange]
  norm_num [SLOT_INCREMENT]

/-- Concrete instance of `calculate_slots_interval`: event at 0, range
09:05–09:15 relative (300 s – 900 s), spacing 1. -/
theorem calculate_slots_interval_witness :
    (2 : ℤ) ∈ calculate_slots 0 300 900 1 ↔
      (intCeilDiv (300 - 0) 300 ≤ 2
        ∧ (2 : ℤ) < intCeilDiv (300 - 0) 300 + num_slots 300 900 + 1) :=
  calculate_slots_interval 0 300 900 1 (by decide) (by decide) (by decide) 2

/-- The `preferred_slots` objective term exactly as the source evaluates it.
In the source the generator is
`self.active(s, t.id, vid) for t in talks for s in talk.preferred_slots for vid in venue_ids`:
`talk` is not the iterated variable `t` but the variable left over from the
last completed `for talk in talks:` loop of `get_problem`, i.e. the last
element of `talks` (with an empty `talks` the generator never runs). -/
def objPreferredSlotsSource (talks : List Talk) (venue_ids : List ℕ)
    (ACTIVE : ℤ → ℕ → ℕ → ℕ) : ℕ :=
  match talks.getLast? with
  | none => 0
  | some talk =>
    10 * (talks.map (fun t =>
      (talk.preferred_slots.map (fun s =>
        (venue_ids.map (fun vid => ACTIVE s t.id vid)).sum)).sum)).sum

/-- The `preferred_slots` objective term as the spec states it: each iterated
talk's own `preferred_slots` is read. -/
def objPreferredSlotsSpec (talks : List Talk) (venue_ids : List ℕ)
    (ACTIVE : ℤ → ℕ → ℕ → ℕ) : ℕ :=
  10 * (talks.map (fun t =>
    (t.preferred_slots.map (fun s =>
      (venue_ids.map (fun vid => ACTIVE s t.id vid)).sum)).sum)).sum

/-- Failing input for C2: talk 1 prefers slot 0, talk 2 (the last talk)
prefers slot 1, one venue. -/
def exC2talks : List Talk :=
  [{ id := 1, duration := 1, preferred_slots := [0] },
   { id := 2, duration := 1, preferred_slots := [1] }]

/-- Assignment for C2: only `ACTIVE(0, 1, 1) = 1` (talk 1 active in its own
preferred slot 0). -/
def exC2active : ℤ → ℕ → ℕ → ℕ :=
  fun s tid vid => if s = 0 ∧ tid = 1 ∧ vid = 1 then 1 else 0

/-- C2: the source's weight-10 preferred-slot term reads the loop-leaked
`talk` (the last talk) instead of the iterated talk `t`: at the failing
input the assembled term is `0` although the talk is active in its own
preferred slot, where the spec's reading gives `10`. -/
theorem preferred_slots_term_reads_leaked_talk :
    objPreferredSlotsSource exC2talks [1] exC2active = 0
    ∧ objPreferredSlotsSpec exC2talks [1] exC2active = 10
    ∧ objPreferredSlotsSource exC2talks [1] exC2active
        ≠ objPreferredSlotsSpec exC2talks [1] exC2active := by
  refine ⟨by decide, by decide, by decide⟩

/-- The speakers' preferred-slots objective term exactly as the source builds
it: `self.active(s, t.id, vid) for vid in venue_ids for t in talks
for p in t.speakers for s in self.people_by_id[p].preferred_slots`.
Each (speaker, slot-occurrence) contributes separately. -/
def objSpeakerSlotsSource (talks : List Talk) (venue_ids : List ℕ)
    (people_by_id : ℕ → Person) (ACTIVE : ℤ → ℕ → ℕ → ℕ) : ℕ :=
  5 * (venue_ids.map (fun vid =>
    (talks.map (fun t =>
      (t.speakers.map (fun p =>
        ((people_by_id p).preferred_slots.map (fun s =>
          ACTIVE s t.id vid)).sum)).sum)).sum)).sum

/-- The speakers' preferred-slots objective term as the claim states it:
`s` ranges over the set-union of the speakers' `preferred_slots`, so each
slot contributes its `ACTIVE` variable once. -/
def objSpeakerSlotsSpecUnion (talks : List Talk) (venue_ids : List ℕ)
    (people_by_id : ℕ → Person) (ACTIVE : ℤ → ℕ → ℕ → ℕ) : ℕ :=
  5 * (venue_ids.map (fun vid =>
    (talks.map (fun t =>
      ((t.speakers.flatMap (fun p =>
        (people_by_id p).preferred_slots)).dedup.map (fun s =>
          ACTIVE s t.id vid)).sum)).sum)).sum

/-- Input for C3: one talk with two speakers, both of whom prefer slot 0. -/
def exC3talks : List Talk :=
  [{ id := 1, duration := 1, speakers := [1, 2] }]

/-- People for C3: persons 1 and 2 both prefer slot 0. -/
def exC3people : ℕ → Person :=
  fun p => { id := p, name := "p", preferred_slots := [0] }

/-- C3 counterexample: with two speakers of the same talk preferring slot 0
and only `ACTIVE(0, 1, 1) = 1`, the source term is `10` (the variable is
counted once per speaker) while the claimed union reading gives `5`. -/
theorem speaker_preferred_slots_term_double_counts :
    objSpeakerSlotsSource exC3talks [1] exC3people exC2active = 10
    ∧ objSpeakerSlotsSpecUnion exC3talks [1] exC3people exC2active = 5
    ∧ objSpeakerSlotsSource exC3talks [1] exC3people exC2active
        ≠ objSpeakerSlotsSpecUnion exC3talks [1] exC3people exC2active := by
  refine ⟨by decide, by decide, by decide⟩

/-- Indicator assignment: 1 exactly on the variable `(s0, t0, v0)`. -/
def indicatorA (s0 : ℤ) (t0 v0 : ℕ) : ℤ → ℕ → ℕ → ℕ :=
  fun s t v => if s = s0 ∧ t = t0 ∧ v = v0 then 1 else 0

theorem sum_map_ite_count (l : List ℤ) (s0 : ℤ) (c : ℕ) :
    (l.map (fun s => if s = s0 then c else 0)).sum = c * l.count s0 := by
  induction l with
  | nil => simp
  | cons x xs ih =>
    simp only [List.map_cons, List.sum_cons, List.count_cons, ih]
    by_cases hx : x = s0
    · subst hx
      simp [Nat.mul_add]
      omega
    · have : ¬ (x == s0) = true := by simpa using hx
      simp [hx, this]

theorem sum_map_ite_of_nodup (l : List ℕ) (v0 : ℕ) (hn : l.Nodup) (hm : v0 ∈ l) (c : ℕ) :
    (l.map (fun v => if v = v0 then c else 0)).sum = c := by
  induction l with
  | nil => cases hm
  | cons x xs ih =>
    rcases List.nodup_cons.mp hn with ⟨hx, hxs⟩
    rcases List.mem_cons.mp hm with rfl | hmem
    · simp only [List.map_cons, List.sum_cons, if_true]
      have : (xs.map (fun v => if v = v0 then c else 0)).sum = 0 := by
        apply List.sum_eq_zero
        intro y hy
        rcases List.mem_map.mp hy with ⟨v, hv, rfl⟩
        have : v ≠ v0 := fun h => hx (h ▸ hv)
        simp [this]
      omega
    · have hxne : x ≠ v0 := fun h => hx (h ▸ hmem)
      simp only [List.map_cons, List.sum_cons, if_neg hxne, Nat.zero_add]
      exact ih hxs hmem

theorem sum_map_talks_ite (talks : List Talk) (hids : (talks.map Talk.id).Nodup)
    (t0 : Talk) (ht0 : t0 ∈ talks) (h : Talk → ℕ) :
    (talks.map (fun t => if t.id = t0.id then h t else 0)).sum = h t0 := by
  induction talks with
  | nil => cases ht0
  | cons x xs ih =>
    rw [List.map_cons] at hids
    rcases List.nodup_cons.mp hids with ⟨hx, hxs⟩
    rcases List.mem_cons.mp ht0 with rfl | hmem
    · simp only [List.map_cons, List.sum_cons, if_true]
      have : (xs.map (fun t => if t.id = t0.id then h t else 0)).sum = 0 := by
        apply List.sum_eq_zero
        intro y hy
        rcases List.mem_map.mp hy with ⟨t, ht, rfl⟩
        have : t.id ≠ t0.id := fun heq => hx (heq ▸ List.mem_map_of_mem Talk.id ht)
        simp [this]
      omega
    · have hxne : x.id ≠ t0.id := by
        intro heq
        exact hx (heq ▸ List.mem_map_of_mem Talk.id hmem)
      simp only [List.map_cons, List.sum_cons, if_neg hxne, Nat.zero_add]
      exact ih hxs hmem

/-- C3 (amended): the coefficient of `ACTIVE(s0, t0, v0)` in the source's
speakers' preferred-slots objective term is `5` times the number of
(speaker, occurrence) pairs with `s0` in that speaker's `preferred_slots` —
a slot preferred by two speakers of the same talk is counted twice. -/
theorem speaker_preferred_slots_coefficient
    (talks : List Talk) (venue_ids : List ℕ) (people_by_id : ℕ → Person)
    (t0 : Talk) (s0 : ℤ) (v0 : ℕ)
    (hvn : venue_ids.Nodup) (hv0 : v0 ∈ venue_ids)
    (hids : (talks.map Talk.id).Nodup) (ht0 : t0 ∈ talks) :
    objSpeakerSlotsSource talks venue_ids people_by_id (indicatorA s0 t0.id v0)
      = 5 * (t0.speakers.map (fun p =>
          (people_by_id p).preferred_slots.count s0)).sum := by
  unfold objSpeakerSlotsSource indicatorA
  have key : ∀ vid ∈ venue_ids,
      (talks.map (fun t =>
        (t.speakers.map (fun p =>
          ((people_by_id p).preferred_slots.map (fun s =>
            if s = s0 ∧ t.id = t0.id ∧ vid = v0 then 1 else 0)).sum)).sum)).sum
      = if vid = v0
          then (t0.speakers.map (fun p =>
            (people_by_id p).preferred_slots.count s0)).sum
          else 0 := by
    intro vid _
    by_cases hvid : vid = v0
    · rw [if_pos hvid]
      have hmap : ∀ t ∈ talks,
          (t.speakers.map (fun p =>
            ((people_by_id p).preferred_slots.map (fun s =>
              if s = s0 ∧ t.id = t0.id ∧ vid = v0 then 1 else 0)).sum)).sum
          = if t.id = t0.id
              then (t.speakers.map (fun p =>
                (people_by_id p).preferred_slots.count s0)).sum
              else 0 := by
        intro t _
        by_cases hid : t.id = t0.id
        · rw [if_pos hid]
          refine congrArg List.sum (List.map_congr_left (fun p _ => ?_))
          have hinner : ∀ s ∈ (people_by_id p).preferred_slots,
              (if s = s0 ∧ t.id = t0.id ∧ vid = v0 then 1 else 0)
              = (if s = s0 then 1 else 0) := by
            intro s _
            by_cases hs : s = s0
            · simp [hs, hid, hvid]
            · simp [hs]
          rw [List.map_congr_left hinner]
          have := sum_map_ite_count (people_by_id p).preferred_slots s0 1
          omega
        · rw [if_neg hid]
          apply List.sum_eq_zero
          intro x hx
          rcases List.mem_map.mp hx with ⟨p, _, rfl⟩
          apply List.sum_eq_zero
          intro y hy
          rcases List.mem_map.mp hy with ⟨s, _, rfl⟩
          simp [hid]
      rw [List.map_congr_left hmap]
      exact sum_map_talks_ite talks hids t0 ht0 (fun t =>
        (t.speakers.map (fun p => (people_by_id p).preferred_slots.count s0)).sum)
    · rw [if_neg hvid]
      apply List.sum_eq_zero
      intro x hx
      rcases List.mem_map.mp hx with ⟨t, _, rfl⟩
      apply List.sum_eq_zero
      intro y hy
      rcases List.mem_map.mp hy with ⟨p, _, rfl⟩
      apply List.sum_eq_zero
      intro z hz
      rcases List.mem_map.mp hz with ⟨s, _, rfl⟩
      simp [hvid]
  rw [List.map_congr_left key]
  rw [sum_map_ite_of_nodup venue_ids v0 hvn hv0]

/-- Concrete instance of `speaker_preferred_slots_coefficient`: the talk
with two speakers both preferring slot 0 gets coefficient `5 * 2 = 10`. -/
theorem speaker_preferred_slots_coefficient_witness :
    objSpeakerSlotsSource exC3talks [1] exC3people
        (indicatorA 0 ({ id := 1, duration := 1, speakers := [1, 2] } : Talk).id 1)
      = 5 * (({ id := 1, duration := 1, speakers := [1, 2] } : Talk).speakers.map (fun p =>
          (exC3people p).preferred_slots.count 0)).sum :=
  speaker_preferred_slots_coefficient exC3talks [1] exC3people
    ({ id := 1, duration := 1, speakers := [1, 2] } : Talk) 0 1
    (by decide) (by decide) (by decide) (by decide)

/-- Sense of a pulp linear constraint. -/
inductive CSense where
  | CLe : CSense
  | CGe : CSense
  | CEq : CSense
deriving DecidableEq, Repr

/-- A named pulp linear constraint over the `START` variable family:
coefficient pairs `((slot, talk_id, venue_id), coeff)`, a sense and a
right-hand side (mirrors `LpAffineExpression([...]) <sense> rhs`). -/
structure LinConstr where
  name : String
  pairs : List ((ℤ × ℕ × ℕ) × ℤ)
  sense : CSense
  rhs : ℤ
deriving DecidableEq, Repr

/-- Value of an affine expression under an assignment of the `START` family. -/
def affineValue (START : ℤ → ℕ → ℕ → ℕ) (pairs : List ((ℤ × ℕ × ℕ) × ℤ)) : ℤ :=
  (pairs.map (fun pc => pc.2 * (START pc.1.1 pc.1.2.1 pc.1.2.2 : ℤ))).sum

/-- A constraint holds under an assignment. -/
def LinConstr.satisfied (c : LinConstr) (START : ℤ → ℕ → ℕ → ℕ) : Prop :=
  match c.sense with
  | CSense.CLe => affineValue START c.pairs ≤ c.rhs
  | CSense.CGe => affineValue START c.pairs ≥ c.rhs
  | CSense.CEq => affineValue START c.pairs = c.rhs

/-- The pair list `[(start_var(s, tid, vid), g s) for s in slots for vid in venue_ids]`. -/
def startPairs (slots : List ℤ) (venue_ids : List ℕ) (tid : ℕ) (g : ℤ → ℤ) :
    List ((ℤ × ℕ × ℕ) × ℤ) :=
  slots.flatMap (fun s => venue_ids.map (fun vid => ((s, tid, vid), g s)))

/-- The affine expression of the rest-spacing constraints:
`[(start_var(s, t2id, vid), s), ...] + [(start_var(s, t1id, vid), -s), ...]`. -/
def restSpacingPairs (slots : List ℤ) (venue_ids : List ℕ) (t2id t1id : ℕ) :
    List ((ℤ × ℕ × ℕ) × ℤ) :=
  startPairs slots venue_ids t2id (fun s => s)
    ++ startPairs slots venue_ids t1id (fun s => -s)

/-- The `REST_MIN_SPACING_{t2id}_{t1id}` constraint:
`start(t2) - start(t1) >= duration(t1) + ceil(60/SLOT_INCREMENT)`. -/
def restMinConstr (talks_by_id : ℕ → Talk) (slots_available : List ℤ)
    (venue_ids : List ℕ) (t2id t1id : ℕ) : LinConstr where
  name := "REST_MIN_SPACING_" ++ toString t2id ++ "_" ++ toString t1id
  pairs := restSpacingPairs slots_available venue_ids t2id t1id
  sense := CSense.CGe
  rhs := ((talks_by_id t1id).duration : ℤ) + (ceilDivNat 60 SLOT_INCREMENT : ℤ)

/-- The `REST_MAX_SPACING_{t2id}_{t1id}` constraint:
`start(t2) - start(t1) <= duration(t1) + ceil(120/SLOT_INCREMENT)`. -/
def restMaxConstr (talks_by_id : ℕ → Talk) (slots_available : List ℤ)
    (venue_ids : List ℕ) (t2id t1id : ℕ) : LinConstr where
  name := "REST_MAX_SPACING_" ++ toString t2id ++ "_" ++ toString t1id
  pairs := restSpacingPairs slots_available venue_ids t2id t1id
  sense := CSense.CLe
  rhs := ((talks_by_id t1id).duration : ℤ) + (ceilDivNat 120 SLOT_INCREMENT : ℤ)

/-- The rest-spacing constraints of `get_problem`: for `t2id` in `rest_talks`
(ids of talks with `rest == 1`), when `talks_by_id[t2id].rest == 1`, for each
prerequisite `t1id` with `talks_by_id[t1id].rest == 1`, emit
`REST_MIN_SPACING_{t2id}_{t1id}` and `REST_MAX_SPACING_{t2id}_{t1id}`. -/
def restSpacingConstraints (talks : List Talk) (talks_by_id : ℕ → Talk)
    (slots_available : List ℤ) (venue_ids : List ℕ) : List LinConstr :=
  ((talks.filter (fun t => t.rest == 1)).map Talk.id).flatMap (fun t2id =>
    if (talks_by_id t2id).rest = 1 then
      (talks_by_id t2id).prereqs.flatMap (fun t1id =>
        if (talks_by_id t1id).rest = 1 then
          [restMinConstr talks_by_id slots_available venue_ids t2id t1id,
           restMaxConstr talks_by_id slots_available venue_ids t2id t1id]
        else [])
    else [])

/-- `start(t) = Σ_{s,v} s · START(s,t,v)`. -/
def startOf (START : ℤ → ℕ → ℕ → ℕ) (slots : List ℤ) (venue_ids : List ℕ)
    (tid : ℕ) : ℤ :=
  (slots.map (fun s => (venue_ids.map (fun vid => s * (START s tid vid : ℤ))).sum)).sum

theorem affineValue_append (START : ℤ → ℕ → ℕ → ℕ)
    (p q : List ((ℤ × ℕ × ℕ) × ℤ)) :
    affineValue START (p ++ q) = affineValue START p + affineValue START q := by
  unfold affineValue
  rw [List.map_append, List.sum_append]

theorem affineValue_startPairs (START : ℤ → ℕ → ℕ → ℕ)
    (slots : List ℤ) (venue_ids : List ℕ) (tid : ℕ) (g : ℤ → ℤ) :
    affineValue START (startPairs slots venue_ids tid g)
      = (slots.map (fun s =>
          (venue_ids.map (fun vid => g s * (START s tid vid : ℤ))).sum)).sum := by
  induction slots with
  | nil => rfl
  | cons x xs ih =>
    unfold startPairs at ih ⊢
    rw [List.flatMap_cons, affineValue_append, ih, List.map_cons, List.sum_cons]
    congr 1
    unfold affineValue
    rw [List.map_map]
    rfl

theorem sum_map_neg_int {α : Type} (l : List α) (f : α → ℤ) :
    (l.map (fun x => -(f x))).sum = -((l.map f).sum) := by
  induction l with
  | nil => simp
  | cons x xs ih => simp only [List.map_cons, List.sum_cons, ih]; ring

theorem affineValue_restSpacingPairs (START : ℤ → ℕ → ℕ → ℕ)
    (slots : List ℤ) (venue_ids : List ℕ) (t2id t1id : ℕ) :
    affineValue START (restSpacingPairs slots venue_ids t2id t1id)
      = startOf START slots venue_ids t2id - startOf START slots venue_ids t1id := by
  unfold restSpacingPairs
  rw [affineValue_append, affineValue_startPairs, affineValue_startPairs]
  unfold startOf
  have h1 : (slots.map (fun s =>
      (venue_ids.map (fun vid => -s * (START s t1id vid : ℤ))).sum)).sum
      = -((slots.map (fun s =>
          (venue_ids.map (fun vid => s * (START s t1id vid : ℤ))).sum)).sum) := by
    rw [show (fun (s : ℤ) => (venue_ids.map (fun vid => -s * (START s t1id vid : ℤ))).sum)
        = (fun (s : ℤ) => -((venue_ids.map (fun vid => s * (START s t1id vid : ℤ))).sum)) from ?_]
    · exact sum_map_neg_int slots _
    · funext s
      rw [show (fun (vid : ℕ) => -s * (START s t1id vid : ℤ))
          = (fun (vid : ℕ) => -(s * (START s t1id vid : ℤ))) from ?_]
      · exact sum_map_neg_int venue_ids _
      · funext vid
        ring
  rw [h1]
  ring

/-- Statement of C4 for one qualifying pair `(t2, t1id)`: both named
constraints are emitted, and together they hold under an assignment exactly
when `start(t2) − start(t1)` lies in `[duration(t1) + 12, duration(t1) + 24]`. -/
def RestSpacingClaim (talks : List Talk) (talks_by_id : ℕ → Talk)
    (slots_available : List ℤ) (venue_ids : List ℕ) (t2 : Talk) (t1id : ℕ) : Prop :=
  restMinConstr talks_by_id slots_available venue_ids t2.id t1id
    ∈ restSpacingConstraints talks talks_by_id slots_available venue_ids
  ∧ restMaxConstr talks_by_id slots_available venue_ids t2.id t1id
    ∈ restSpacingConstraints talks talks_by_id slots_available venue_ids
  ∧ ∀ START : ℤ → ℕ → ℕ → ℕ,
      ((restMinConstr talks_by_id slots_available venue_ids t2.id t1id).satisfied START
        ∧ (restMaxConstr talks_by_id slots_available venue_ids t2.id t1id).satisfied START)
      ↔ (((talks_by_id t1id).duration : ℤ) + 12
            ≤ startOf START slots_available venue_ids t2.id
              - startOf START slots_available venue_ids t1id
          ∧ startOf START slots_available venue_ids t2.id
              - startOf START slots_available venue_ids t1id
            ≤ ((talks_by_id t1id).duration : ℤ) + 24)

/-- C4: for every pair `(t2, t1)` with `t2` a rest, `t1 ∈ prereqs(t2)` and
`t1` a rest, `REST_MIN_SPACING_{t2}_{t1}` and `REST_MAX_SPACING_{t2}_{t1}`
are emitted and force `start(t2) − start(t1) ∈ [duration(t1)+12,
duration(t1)+24]` slots, i.e. 60 to 120 minutes inclusive. -/
theorem rest_spacing_constraints_interval
    (talks : List Talk) (talks_by_id : ℕ → Talk)
    (slots_available : List ℤ) (venue_ids : List ℕ)
    (hbyId : ∀ t ∈ talks, talks_by_id t.id = t)
    (t2 : Talk) (ht2 : t2 ∈ talks) (hr2 : t2.rest = 1)
    (t1id : ℕ) (ht1 : t1id ∈ t2.prereqs) (hr1 : (talks_by_id t1id).rest = 1) :
    RestSpacingClaim talks talks_by_id slots_available venue_ids t2 t1id := by
  have hid2 : talks_by_id t2.id = t2 := hbyId t2 ht2
  have hmem2 : t2.id ∈ ((talks.filter (fun t => t.rest == 1)).map Talk.id) :=
    List.mem_map_of_mem Talk.id (List.mem_filter.mpr ⟨ht2, by simp [hr2]⟩)
  have hr2' : (talks_by_id t2.id).rest = 1 := by rw [hid2]; exact hr2
  have ht1' : t1id ∈ (talks_by_id t2.id).prereqs := by rw [hid2]; exact ht1
  have hmin : restMinConstr talks_by_id slots_available venue_ids t2.id t1id
      ∈ restSpacingConstraints talks talks_by_id slots_available venue_ids := by
    unfold restSpacingConstraints
    refine List.mem_flatMap.mpr ⟨t2.id, hmem2, ?_⟩
    rw [if_pos hr2']
    refine List.mem_flatMap.mpr ⟨t1id, ht1', ?_⟩
    rw [if_pos hr1]
    exact List.mem_cons_self _ _
  have hmax : restMaxConstr talks_by_id slots_available venue_ids t2.id t1id
      ∈ restSpacingConstraints talks talks_by_id slots_available venue_ids := by
    unfold restSpacingConstraints
    refine List.mem_flatMap.mpr ⟨t2.id, hmem2, ?_⟩
    rw [if_pos hr2']
    refine List.mem_flatMap.mpr ⟨t1id, ht1', ?_⟩
    rw [if_pos hr1]
    exact List.mem_cons_of_mem _ (List.mem_cons_self _ _)
  refine ⟨hmin, hmax, ?_⟩
  intro START
  unfold restMinConstr restMaxConstr LinConstr.satisfied
  simp only
  rw [affineValue_restSpacingPairs]
  have h60 : ((ceilDivNat 60 SLOT_INCREMENT : ℕ) : ℤ) = 12 := rfl
  have h120 : ((ceilDivNat 120 SLOT_INCREMENT : ℕ) : ℤ) = 24 := rfl
  rw [h60, h120]

/-- The lookup table for the C4 witness instance: rest talk 1 (duration 6)
and rest talk 2 with prerequisite 1. -/
def exC4byId : ℕ → Talk :=
  fun i => if i = 1 then { id := 1, duration := 6, rest := 1 }
           else { id := 2, duration := 6, rest := 1, prereqs := [1] }

/-- The talks list for the C4 witness instance. -/
def exC4talks : List Talk :=
  [{ id := 1, duration := 6, rest := 1 },
   { id := 2, duration := 6, rest := 1, prereqs := [1] }]

/-- Concrete instance of `rest_spacing_constraints_interval`: two 30-minute
rests with a prerequisite edge. -/
theorem rest_spacing_constraints_interval_witness :
    RestSpacingClaim exC4talks exC4byId [0, 1] [1]
      ({ id := 2, duration := 6, rest := 1, prereqs := [1] } : Talk) 1 :=
  rest_spacing_constraints_interval exC4talks exC4byId [0, 1] [1]
    (by decide)
    ({ id := 2, duration := 6, rest := 1, prereqs := [1] } : Talk)
    (by decide) (by decide) 1 (by decide) (by decide)

/-- A pulp `LpVariable` as created by the variable factory: its name, bounds
and category (`cat="Binary"` means bounds 0..1 unless pinned). -/
structure LpVar where
  name : String
  lowBound : ℤ
  upBound : ℤ
  cat : String
deriving DecidableEq, Repr

/-- The mutable state `start_var` reads: the string-keyed variable cache,
`slots_available` and `talks_by_id`. -/
structure SMState where
  var_cache : List (String × LpVar)
  slots_available : List ℤ
  talks_by_id : ℕ → Talk

/-- The name `"START_%d_%d_%d" % (slot, talk_id, venue)`. -/
def startVarName (slot : ℤ) (talk_id venue : ℕ) : String :=
  "START_" ++ toString slot ++ "_" ++ toString talk_id ++ "_" ++ toString venue

/-- `SlotMachine.start_var`: return the cached variable if present; otherwise
create it, pinning both bounds to 0 when the talk starting at `slot` would
leave `slots_available` within its duration, and cache it. -/
def start_var (st : SMState) (slot : ℤ) (talk_id venue : ℕ) : LpVar × SMState :=
  let name := startVarName slot talk_id venue
  match st.var_cache.lookup name with
  | some v => (v, st)
  | none =>
    let contiguous := (List.range (st.talks_by_id talk_id).duration).all
      (fun slot_offset => st.slots_available.contains (slot + (slot_offset : ℤ)))
    let var : LpVar :=
      if !contiguous then
        { name := name, lowBound := 0, upBound := 0, cat := "Binary" }
      else
        { name := name, lowBound := 0, upBound := 1, cat := "Binary" }
    (var, { st with var_cache := (name, var) :: st.var_cache })


/-- The C8 witness state: fresh cache, `slots_available = [0, 1]`, one talk
of duration 2. -/
def exC8state : SMState where
  var_cache := []
  slots_available := [0, 1]
  talks_by_id := fun _ => { id := 1, duration := 2 }

/-- C8: on a cache miss, `start_var` pins both bounds to 0 iff the interval
`[slot, slot + duration)` is not fully contained in `slots_available`, and
otherwise creates a free 0/1 variable; and a repeated request for the same
`(slot, talk_id, venue)` returns the identical cached variable (and leaves
the state unchanged). -/
theorem start_var_pruning_and_cache
    (st : SMState) (slot : ℤ) (talk_id venue : ℕ)
    (hfresh : st.var_cache.lookup (startVarName slot talk_id venue) = none) :
    (((start_var st slot talk_id venue).1.lowBound = 0
        ∧ (start_var st slot talk_id venue).1.upBound = 0)
      ↔ ¬ (∀ slot_offset : ℕ, slot_offset < (st.talks_by_id talk_id).duration →
            (slot + (slot_offset : ℤ)) ∈ st.slots_available))
    ∧ ((∀ slot_offset : ℕ, slot_offset < (st.talks_by_id talk_id).duration →
          (slot + (slot_offset : ℤ)) ∈ st.slots_available) →
        ((start_var st slot talk_id venue).1.lowBound = 0
          ∧ (start_var st slot talk_id venue).1.upBound = 1))
    ∧ start_var (start_var st slot talk_id venue).2 slot talk_id venue
        = ((start_var st slot talk_id venue).1, (start_var st slot talk_id venue).2) := by
  have hcontig : ((List.range (st.talks_by_id talk_id).duration).all
      (fun slot_offset => st.slots_available.contains (slot + (slot_offset : ℤ))) = true)
      ↔ (∀ slot_offset : ℕ, slot_offset < (st.talks_by_id talk_id).duration →
          (slot + (slot_offset : ℤ)) ∈ st.slots_available) := by
    rw [List.all_eq_true]
    constructor
    · intro h off hoff
      exact List.elem_iff.mp (h off (List.mem_range.mpr hoff))
    · intro h off hoff
      exact List.elem_iff.mpr (h off (List.mem_range.mp hoff))
  by_cases hc : (List.range (st.talks_by_id talk_id).duration).all
      (fun slot_offset => st.slots_available.contains (slot + (slot_offset : ℤ))) = true
  · have hsv : start_var st slot talk_id venue
        = ({ name := startVarName slot talk_id venue, lowBound := 0, upBound := 1,
             cat := "Binary" },
           { st with var_cache := (startVarName slot talk_id venue,
               ({ name := startVarName slot talk_id venue, lowBound := 0, upBound := 1,
                  cat := "Binary" } : LpVar)) :: st.var_cache }) := by
      simp only [start_var, hfresh, hc]
      rfl
    refine ⟨?_, ?_, ?_⟩
    · rw [hsv]
      simp only
      constructor
      · rintro ⟨-, h⟩
        exact absurd h (by decide)
      · intro h
        exact absurd (hcontig.mp hc) h
    · intro _
      rw [hsv]
      exact ⟨rfl, rfl⟩
    · rw [hsv]
      simp only [start_var, List.lookup_cons_self]
  · have hc' : (List.range (st.talks_by_id talk_id).duration).all
        (fun slot_offset => st.slots_available.contains (slot + (slot_offset : ℤ))) = false := by
      cases hx : (List.range (st.talks_by_id talk_id).duration).all
          (fun slot_offset => st.slots_available.contains (slot + (slot_offset : ℤ)))
      · rfl
      · exact absurd hx hc
    have hsv : start_var st slot talk_id venue
        = ({ name := startVarName slot talk_id venue, lowBound := 0, upBound := 0,
             cat := "Binary" },
           { st with var_cache := (startVarName slot talk_id venue,
               ({ name := startVarName slot talk_id venue, lowBound := 0, upBound := 0,
                  cat := "Binary" } : LpVar)) :: st.var_cache }) := by
      simp only [start_var, hfresh, hc']
      rfl
    refine ⟨?_, ?_, ?_⟩
    · rw [hsv]
      simp only
      constructor
      · intro _
        rw [← hcontig, hc']
        decide
      · intro _
        exact ⟨trivial, trivial⟩
    · intro h
      exact absurd (hcontig.mpr h) hc
    · rw [hsv]
      simp only [start_var, List.lookup_cons_self]

/-- Concrete instance of `start_var_pruning_and_cache` at `exC8state`. -/
theorem start_var_pruning_and_cache_witness :
    (((start_var exC8state 0 1 1).1.lowBound = 0
        ∧ (start_var exC8state 0 1 1).1.upBound = 0)
      ↔ ¬ (∀ slot_offset : ℕ, slot_offset < (exC8state.talks_by_id 1).duration →
            ((0 : ℤ) + (slot_offset : ℤ)) ∈ exC8state.slots_available))
    ∧ ((∀ slot_offset : ℕ, slot_offset < (exC8state.talks_by_id 1).duration →
          ((0 : ℤ) + (slot_offset : ℤ)) ∈ exC8state.slots_available) →
        ((start_var exC8state 0 1 1).1.lowBound = 0
          ∧ (start_var exC8state 0 1 1).1.upBound = 1))
    ∧ start_var (start_var exC8state 0 1 1).2 0 1 1
        = ((start_var exC8state 0 1 1).1, (start_var exC8state 0 1 1).2) :=
  start_var_pruning_and_cache exC8state 0 1 1 rfl

/-- The `ATTEND_FULL_TALK_{t}_{p}` constraint datum: the talk and the person
it couples. -/
structure AFTConstr where
  talk : Talk
  person_id : ℕ
deriving DecidableEq, Repr

/-- Name of an `ATTEND_FULL_TALK` constraint. -/
def AFTConstr.cname (c : AFTConstr) : String :=
  "ATTEND_FULL_TALK_" ++ toString c.talk.id ++ "_" ++ toString c.person_id

/-- The constraint itself:
`Σ_{s ∈ talk.slots} ATTEND_AT(s, t, p) = duration(t) · ATTEND(t, p)`. -/
def AFTConstr.satisfied (c : AFTConstr) (ATTEND_AT : ℤ → ℕ → ℕ → ℕ)
    (ATTEND : ℕ → ℕ → ℕ) : Prop :=
  (c.talk.slots.map (fun s => ATTEND_AT s c.talk.id c.person_id)).sum
    = c.talk.duration * ATTEND c.talk.id c.person_id

/-- The `ATTEND_FULL_TALK` constraints emitted by `get_problem`:
`for talk in talks: if talk.meetup == 0: for person in people: ...`. -/
def attend_full_talk_constraints (talks : List Talk) (people : List Person) :
    List AFTConstr :=
  talks.flatMap (fun talk =>
    if talk.meetup = 0 then
      people.map (fun person => { talk := talk, person_id := person.id })
    else [])

/-- C9: for every talk with `meetup = 0` and every person, the constraint
`ATTEND_FULL_TALK_{t}_{p}` is emitted and, whenever it holds with a 0/1
`ATTEND` value, the person's total slot-wise attendance at the talk is `0`
or exactly `duration(t)`; and no `ATTEND_FULL_TALK` constraint is emitted
for a talk with `meetup = 1` (every emitted one has `meetup = 0`). -/
theorem attend_full_talk_coupling
    (talks : List Talk) (people : List Person)
    (talk : Talk) (person : Person)
    (ht : talk ∈ talks) (hp : person ∈ people) (hm : talk.meetup = 0) :
    (({ talk := talk, person_id := person.id } : AFTConstr)
        ∈ attend_full_talk_constraints talks people)
    ∧ (∀ (ATTEND_AT : ℤ → ℕ → ℕ → ℕ) (ATTEND : ℕ → ℕ → ℕ),
        ATTEND talk.id person.id ≤ 1 →
        AFTConstr.satisfied { talk := talk, person_id := person.id } ATTEND_AT ATTEND →
        ((talk.slots.map (fun s => ATTEND_AT s talk.id person.id)).sum = 0
          ∨ (talk.slots.map (fun s => ATTEND_AT s talk.id person.id)).sum = talk.duration))
    ∧ (∀ c ∈ attend_full_talk_constraints talks people, c.talk.meetup = 0) := by
  refine ⟨?_, ?_, ?_⟩
  · unfold attend_full_talk_constraints
    refine List.mem_flatMap.mpr ⟨talk, ht, ?_⟩
    rw [if_pos hm]
    exact List.mem_map_of_mem _ hp
  · intro ATTEND_AT ATTEND hA hsat
    unfold AFTConstr.satisfied at hsat
    simp only at hsat
    have : ATTEND talk.id person.id = 0 ∨ ATTEND talk.id person.id = 1 := by omega
    rcases this with h0 | h1
    · left
      rw [h0, Nat.mul_zero] at hsat
      exact hsat
    · right
      rw [h1, Nat.mul_one] at hsat
      exact hsat
  · intro c hc
    rcases List.mem_flatMap.mp hc with ⟨t, _, hin⟩
    by_cases hmt : t.meetup = 0
    · rw [if_pos hmt] at hin
      rcases List.mem_map.mp hin with ⟨p, _, rfl⟩
      exact hmt
    · rw [if_neg hmt] at hin
      cases hin

/-- The C9 witness talk: non-meetup, duration 2, slots `[0, 1]`. -/
def exC9talk : Talk := { id := 1, duration := 2, slots := [0, 1] }

/-- The C9 witness person. -/
def exC9person : Person := { id := 1, name := "p" }

/-- Concrete instance of `attend_full_talk_coupling`. -/
theorem attend_full_talk_coupling_witness :
    (({ talk := exC9talk, person_id := exC9person.id } : AFTConstr)
        ∈ attend_full_talk_constraints [exC9talk] [exC9person])
    ∧ (∀ (ATTEND_AT : ℤ → ℕ → ℕ → ℕ) (ATTEND : ℕ → ℕ → ℕ),
        ATTEND exC9talk.id exC9person.id ≤ 1 →
        AFTConstr.satisfied { talk := exC9talk, person_id := exC9person.id }
          ATTEND_AT ATTEND →
        ((exC9talk.slots.map (fun s => ATTEND_AT s exC9talk.id exC9person.id)).sum = 0
          ∨ (exC9talk.slots.map (fun s =>
              ATTEND_AT s exC9talk.id exC9person.id)).sum = exC9talk.duration))
    ∧ (∀ c ∈ attend_full_talk_constraints [exC9talk] [exC9person],
        c.talk.meetup = 0) :=
  attend_full_talk_coupling [exC9talk] [exC9person] exC9talk exC9person
    (by decide) (by decide) (by decide)

/-- Terminal statuses of the pulp solver (`pulp.LpStatus`). -/
inductive SolverStatus where
  | Optimal : SolverStatus
  | NotSolved : SolverStatus
  | Infeasible : SolverStatus
  | Unbounded : SolverStatus
  | Undefined : SolverStatus
deriving DecidableEq, Repr

/-- pulp's `constraint.valid(0)` under the all-zero valuation: the affine
part evaluates to 0, compared against the right-hand side. -/
def validZeroConstr (c : LinConstr) : Bool :=
  match c.sense with
  | CSense.CLe => decide (affineValue (fun _ _ _ => 0) c.pairs ≤ c.rhs)
  | CSense.CGe => decide (affineValue (fun _ _ _ => 0) c.pairs ≥ c.rhs)
  | CSense.CEq => decide (affineValue (fun _ _ _ => 0) c.pairs = c.rhs)

/-- `SlotMachine.violated_constr`: names of the constraints whose zero
valuation is invalid. -/
def violated_constr (constraints : List LinConstr) : List String :=
  (constraints.filter (fun c => !(validZeroConstr c))).map (fun c => c.name)

/-- pulp's `variable.valid(0)` at value 0: the bounds must admit 0. -/
def validZeroVar (v : LpVar) : Bool :=
  decide (v.lowBound ≤ 0 ∧ 0 ≤ v.upBound)

/-- `SlotMachine.violating_var`: names of the variables whose bounds exclude
the zero valuation. -/
def violating_var (vars : List LpVar) : List String :=
  (vars.filter (fun v => !(validZeroVar v))).map (fun v => v.name)

/-- The diagnosis carried by the `Unsatisfiable` failure: the lists produced
by `violated_constr` and `violating_var` (both are logged before raising). -/
structure UnsatDiag where
  constr_names : List String
  var_names : List String
deriving DecidableEq, Repr

/-- The status check of `SlotMachine.schedule_talks`: on any terminal status
other than `Optimal` it reports the infeasibility diagnosis and raises
`Unsatisfiable`; only on `Optimal` does it return the extracted result. -/
def schedule_talks (status : SolverStatus) (constraints : List LinConstr)
    (vars : List LpVar) (result : List (ℤ × ℕ × ℕ × List ℕ × List ℕ)) :
    Except UnsatDiag (List (ℤ × ℕ × ℕ × List ℕ × List ℕ)) :=
  if status ≠ SolverStatus.Optimal then
    Except.error { constr_names := violated_constr constraints,
                   var_names := violating_var vars }
  else
    Except.ok result

/-- C6: whenever the solver status is not `Optimal`, `schedule_talks` fails
with `Unsatisfiable` carrying exactly the `violated_constr` /
`violating_var` diagnosis, and never returns a result. -/
theorem schedule_talks_nonoptimal_fails
    (status : SolverStatus) (constraints : List LinConstr)
    (vars : List LpVar) (result : List (ℤ × ℕ × ℕ × List ℕ × List ℕ))
    (h : status ≠ SolverStatus.Optimal) :
    schedule_talks status constraints vars result
      = Except.error { constr_names := violated_constr constraints,
                       var_names := violating_var vars }
    ∧ ∀ r, schedule_talks status constraints vars result ≠ Except.ok r := by
  constructor
  · unfold schedule_talks
    rw [if_pos h]
  · intro r hok
    unfold schedule_talks at hok
    rw [if_pos h] at hok
    cases hok

/-- The C6 witness constraint: `0 = 1`, violated by the zero valuation. -/
def exC6constr : LinConstr :=
  { name := "ONE_START_1", pairs := [], sense := CSense.CEq, rhs := 1 }

/-- The C6 witness variable: bounds pinned to 1, excluding the zero value. -/
def exC6var : LpVar :=
  { name := "START_0_1_1", lowBound := 1, upBound := 1, cat := "Binary" }

/-- Concrete instance of `schedule_talks_nonoptimal_fails`: an `Infeasible`
status with one zero-violated constraint and one pinned variable. -/
theorem schedule_talks_nonoptimal_fails_witness :
    schedule_talks SolverStatus.Infeasible [exC6constr] [exC6var] []
      = Except.error { constr_names := violated_constr [exC6constr],
                       var_names := violating_var [exC6var] }
    ∧ ∀ r, schedule_talks SolverStatus.Infeasible [exC6constr] [exC6var] []
      ≠ Except.ok r :=
  schedule_talks_nonoptimal_fails SolverStatus.Infeasible [exC6constr] [exC6var] []
    (by decide)

/-- A `{start, end}` time range of the descriptor (parsed datetimes as
seconds). -/
structure TimeRange where
  rstart : ℤ
  rend : ℤ
deriving DecidableEq, Repr

/-- A talk record of the JSON descriptor (the keys `prep_schedule` reads;
`time_ranges = none` models a missing key, which raises `KeyError`). -/
structure EventDesc where
  id : ℕ
  duration : ℕ
  time_ranges : Option (List TimeRange)
  preferred_time_ranges : List TimeRange := []
  valid_venues : List ℕ
  speakers : List String
  durations : Option (List ℕ) := none
  spacing_slots : Option ℕ := none
  preferred_venues : List ℕ := []
  plenary : ℕ := 0
  irl_only : ℕ := 0
  prereqs : List ℕ := []
  rest : ℕ := 0
  languages : List ℕ := [0]
  before_rest : ℕ := 0
  after_rest : ℕ := 0
  meetup : ℕ := 0
  invite_only : ℕ := 0
  similarities : List (ℕ × ℕ) := []
deriving DecidableEq, Repr

/-- A person record of the JSON descriptor (keys absent from a record are
read with `.get(..., default)` in the source, hence plain defaults here). -/
structure PersonDesc where
  id : ℕ
  name : String
  attending : ℕ
  time_ranges : List TimeRange := []
  preferred_time_ranges : List TimeRange := []
  preferences : List (ℕ × ℕ) := []
  languages : List ℕ := [0]
deriving DecidableEq, Repr

/-- A venue record of the JSON descriptor. -/
structure VenueDesc where
  id : ℕ
  name : String
  capacity : ℕ
  time_ranges : List TimeRange := []
deriving DecidableEq, Repr

/-- Failures `prep_schedule` can raise: a Python `KeyError` (missing dict
key or unknown lookup key) or a `ValueError` (`min()` of an empty
sequence). The source defines no `BadDescriptor` exception. -/
inductive LoadErr where
  | keyError : String → LoadErr
  | valueError : String → LoadErr
deriving DecidableEq, Repr

/-- The generator feeding `event_start = min(parse(r["start"]) for event in
schedule["talks"] for r in event["time_ranges"])`: collects every range
start, raising `KeyError` on the first event without `time_ranges`. -/
def collectStarts : List EventDesc → Except LoadErr (List ℤ)
  | [] => Except.ok []
  | e :: rest =>
    match e.time_ranges with
    | none => Except.error (LoadErr.keyError "time_ranges")
    | some trs =>
      match collectStarts rest with
      | Except.error err => Except.error err
      | Except.ok tail => Except.ok (trs.map TimeRange.rstart ++ tail)

/-- `event_start`: the minimum of all talk range starts; `min()` of an empty
sequence raises `ValueError`. -/
def eventStartOf (events : List EventDesc) : Except LoadErr ℤ :=
  match collectStarts events with
  | Except.error err => Except.error err
  | Except.ok [] => Except.error (LoadErr.valueError "min of empty sequence")
  | Except.ok (x :: xs) => Except.ok (xs.foldl min x)

/-- The person loop of `prep_schedule`: translate the person's time ranges
(with the call's `spacing_slots`) and build the `Person` record. -/
def prepPerson (event_start : ℤ) (spacing_slots : ℕ) (p : PersonDesc) : Person :=
  { id := p.id
    name := p.name
    slots := p.time_ranges.flatMap (fun tr =>
      calculate_slots event_start tr.rstart tr.rend (spacing_slots : ℤ))
    preferred_slots := p.preferred_time_ranges.flatMap (fun tr =>
      calculate_slots event_start tr.rstart tr.rend (spacing_slots : ℤ))
    irl := decide (p.attending = 1)
    preferences := p.preferences
    languages := p.languages
    attending := p.attending }

/-- The venue loop of `prep_schedule`: venue ranges are translated with
spacing 0. -/
def prepVenue (event_start : ℤ) (v : VenueDesc) : Venue :=
  { id := v.id
    name := v.name
    capacity := v.capacity
    slots := v.time_ranges.flatMap (fun tr =>
      calculate_slots event_start tr.rstart tr.rend 0) }

/-- `self.people_by_name[speaker].id` for each listed speaker name; an
unknown name raises `KeyError`. -/
def resolveSpeakers (people_by_name : List (String × ℕ)) :
    List String → Except LoadErr (List ℕ)
  | [] => Except.ok []
  | n :: rest =>
    match people_by_name.lookup n with
    | none => Except.error (LoadErr.keyError n)
    | some pid =>
      match resolveSpeakers people_by_name rest with
      | Except.error err => Except.error err
      | Except.ok tail => Except.ok (pid :: tail)

/-- One iteration of the talks loop of `prep_schedule` (with the loop's
current `spacing_slots` already resolved): translate ranges, resolve
speakers, and build the `Talk`; `duration = ceil(minutes / 5) + spacing`.
No check relates `valid_venues` to the declared venues. -/
def prepTalk (event_start : ℤ) (people_by_name : List (String × ℕ))
    (spacing : ℕ) (e : EventDesc) : Except LoadErr Talk :=
  match e.time_ranges with
  | none => Except.error (LoadErr.keyError "time_ranges")
  | some trs =>
    match resolveSpeakers people_by_name e.speakers with
    | Except.error err => Except.error err
    | Except.ok speaker_ids =>
      Except.ok
        { id := e.id
          venues := e.valid_venues
          slots := trs.flatMap (fun tr =>
            calculate_slots event_start tr.rstart tr.rend (spacing : ℤ))
          speakers := speaker_ids
          duration := ceilDivNat e.duration SLOT_INCREMENT + spacing
          durations := (e.durations.getD
            [ceilDivNat e.duration SLOT_INCREMENT + spacing]).map
              (fun d => ceilDivNat d SLOT_INCREMENT + 1)
          preferred_venues := e.preferred_venues
          preferred_slots := e.preferred_time_ranges.flatMap (fun tr =>
            calculate_slots event_start tr.rstart tr.rend (spacing : ℤ))
          plenary := e.plenary
          irl_only := e.irl_only
          prereqs := e.prereqs
          rest := e.rest
          languages := e.languages
          before_rest := e.before_rest
          after_rest := e.after_rest
          meetup := e.meetup
          invite_only := e.invite_only
          similarities := e.similarities }

/-- The talks loop: `spacing_slots = event.get("spacing_slots",
spacing_slots)` reassigns the loop's own variable, so a talk's explicit
spacing persists for all subsequent talks — the fold threads it. -/
def prepTalks (event_start : ℤ) (people_by_name : List (String × ℕ)) :
    ℕ → List EventDesc → Except LoadErr (List Talk)
  | _, [] => Except.ok []
  | spacing, e :: rest =>
    match prepTalk event_start people_by_name (e.spacing_slots.getD spacing) e with
    | Except.error err => Except.error err
    | Except.ok talk =>
      match prepTalks event_start people_by_name (e.spacing_slots.getD spacing) rest with
      | Except.error err => Except.error err
      | Except.ok tail => Except.ok (talk :: tail)

/-- The value returned by `prep_schedule` (the parts this development
needs). -/
structure PrepResult where
  talks : List Talk
  event_start : ℤ
  people : List Person
  venues : List Venue
deriving DecidableEq, Repr

/-- `SlotMachine.prep_schedule`: `event_start` first (over all talks), then
people, then venues, then the talks loop. `people_by_name` is the dict
comprehension `{person.name: person}`, where later bindings shadow earlier
ones (hence the `.reverse` for first-match association lookup). -/
def prep_schedule (events : List EventDesc) (people : List PersonDesc)
    (venuesD : List VenueDesc) (spacing_slots : ℕ) : Except LoadErr PrepResult :=
  match eventStartOf events with
  | Except.error err => Except.error err
  | Except.ok event_start =>
    match prepTalks event_start
        ((people.map (fun p => (p.name, p.id))).reverse) spacing_slots events with
    | Except.error err => Except.error err
    | Except.ok talks =>
      Except.ok
        { talks := talks
          event_start := event_start
          people := people.map (prepPerson event_start spacing_slots)
          venues := venuesD.map (prepVenue event_start) }

theorem collectStarts_error (events : List EventDesc)
    (hex : ∃ e ∈ events, e.time_ranges = none) :
    collectStarts events = Except.error (LoadErr.keyError "time_ranges") := by
  induction events with
  | nil => rcases hex with ⟨e, he, -⟩; cases he
  | cons x xs ih =>
    rcases hex with ⟨e, he, hnone⟩
    rcases List.mem_cons.mp he with rfl | hmem
    · simp [collectStarts, hnone]
    · cases hx : x.time_ranges with
      | none => simp [collectStarts, hx]
      | some trs =>
        have := ih ⟨e, hmem, hnone⟩
        simp [collectStarts, hx, this]

theorem collectStarts_ok_ranges {l : List ℤ} (events : List EventDesc)
    (h : collectStarts events = Except.ok l) :
    ∀ e ∈ events, e.time_ranges ≠ none := by
  induction events generalizing l with
  | nil => intro e he; cases he
  | cons x xs ih =>
    intro e he
    cases hx : x.time_ranges with
    | none =>
      rw [show collectStarts (x :: xs) = Except.error (LoadErr.keyError "time_ranges")
        from by simp [collectStarts, hx]] at h
      cases h
    | some trs =>
      rcases List.mem_cons.mp he with rfl | hmem
      · simp [hx]
      · cases hcs : collectStarts xs with
        | error err =>
          rw [show collectStarts (x :: xs) = Except.error err
            from by simp [collectStarts, hx, hcs]] at h
          cases h
        | ok tail => exact ih hcs e hmem

theorem lookup_isSome_mem_keys (l : List (String × ℕ)) (n : String) (v : ℕ)
    (h : l.lookup n = some v) : n ∈ l.map Prod.fst := by
  induction l with
  | nil => cases h
  | cons kv rest ih =>
    rw [List.lookup_cons] at h
    by_cases hk : (n == kv.1) = true
    · have : n = kv.1 := by simpa using hk
      simp [this]
    · have hk' : (n == kv.1) = false := by
        cases hx : (n == kv.1)
        · rfl
        · exact absurd hx hk
      rw [hk'] at h
      simp only [List.map_cons, List.mem_cons]
      exact Or.inr (ih h)

theorem resolveSpeakers_ok (pbn : List (String × ℕ)) (names : List String)
    (ids : List ℕ) (h : resolveSpeakers pbn names = Except.ok ids) :
    ∀ n ∈ names, n ∈ pbn.map Prod.fst := by
  induction names generalizing ids with
  | nil => intro n hn; cases hn
  | cons x xs ih =>
    intro n hn
    cases hl : pbn.lookup x with
    | none =>
      rw [show resolveSpeakers pbn (x :: xs) = Except.error (LoadErr.keyError x)
        from by simp [resolveSpeakers, hl]] at h
      cases h
    | some pid =>
      rcases List.mem_cons.mp hn with rfl | hmem
      · exact lookup_isSome_mem_keys pbn n pid hl
      · cases hrs : resolveSpeakers pbn xs with
        | error err =>
          rw [show resolveSpeakers pbn (x :: xs) = Except.error err
            from by simp [resolveSpeakers, hl, hrs]] at h
          cases h
        | ok tail => exact ih tail hrs n hmem

theorem prepTalk_ok (event_start : ℤ) (pbn : List (String × ℕ)) (sp : ℕ)
    (e : EventDesc) (t : Talk) (h : prepTalk event_start pbn sp e = Except.ok t) :
    e.time_ranges ≠ none
    ∧ (∀ n ∈ e.speakers, n ∈ pbn.map Prod.fst)
    ∧ t.duration = ceilDivNat e.duration SLOT_INCREMENT + sp := by
  cases hx : e.time_ranges with
  | none =>
    rw [show prepTalk event_start pbn sp e = Except.error (LoadErr.keyError "time_ranges")
      from by simp [prepTalk, hx]] at h
    cases h
  | some trs =>
    cases hrs : resolveSpeakers pbn e.speakers with
    | error err =>
      rw [show prepTalk event_start pbn sp e = Except.error err
        from by simp [prepTalk, hx, hrs]] at h
      cases h
    | ok ids =>
      refine ⟨by simp [hx], resolveSpeakers_ok pbn e.speakers ids hrs, ?_⟩
      rw [show prepTalk event_start pbn sp e = Except.ok
          ({ id := e.id
             venues := e.valid_venues
             slots := trs.flatMap (fun tr =>
               calculate_slots event_start tr.rstart tr.rend (sp : ℤ))
             speakers := ids
             duration := ceilDivNat e.duration SLOT_INCREMENT + sp
             durations := (e.durations.getD
               [ceilDivNat e.duration SLOT_INCREMENT + sp]).map
                 (fun d => ceilDivNat d SLOT_INCREMENT + 1)
             preferred_venues := e.preferred_venues
             preferred_slots := e.preferred_time_ranges.flatMap (fun tr =>
               calculate_slots event_start tr.rstart tr.rend (sp : ℤ))
             plenary := e.plenary
             irl_only := e.irl_only
             prereqs := e.prereqs
             rest := e.rest
             languages := e.languages
             before_rest := e.before_rest
             after_rest := e.after_rest
             meetup := e.meetup
             invite_only := e.invite_only
             similarities := e.similarities } : Talk)
        from by simp [prepTalk, hx, hrs]] at h
      cases h
      rfl

theorem prepTalks_ok (event_start : ℤ) (pbn : List (String × ℕ)) :
    ∀ (sp : ℕ) (events : List EventDesc) (talks : List Talk),
    prepTalks event_start pbn sp events = Except.ok talks →
    ∀ e ∈ events, e.time_ranges ≠ none ∧ ∀ n ∈ e.speakers, n ∈ pbn.map Prod.fst := by
  intro sp events
  induction events generalizing sp with
  | nil => intro talks _ e he; cases he
  | cons x xs ih =>
    intro talks h e he
    cases hpt : prepTalk event_start pbn (x.spacing_slots.getD sp) x with
    | error err =>
      rw [show prepTalks event_start pbn sp (x :: xs) = Except.error err
        from by simp [prepTalks, hpt]] at h
      cases h
    | ok talk =>
      rcases List.mem_cons.mp he with rfl | hmem
      · have := prepTalk_ok event_start pbn (e.spacing_slots.getD sp) e talk hpt
        exact ⟨this.1, this.2.1⟩
      · cases hrest : prepTalks event_start pbn (x.spacing_slots.getD sp) xs with
        | error err =>
          rw [show prepTalks event_start pbn sp (x :: xs) = Except.error err
            from by simp [prepTalks, hpt, hrest]] at h
          cases h
        | ok tail => exact ih (x.spacing_slots.getD sp) tail hrest e hmem

/-- C5 (amended): loading fails at load time — before any solve — with a
`KeyError` when a talk lacks `time_ranges`; a successful load guarantees
every talk has `time_ranges` and every speaker name resolves against the
people. (No check relates `valid_venues` to the declared venues; see the
counterexample.) -/
theorem prep_schedule_load_errors
    (events : List EventDesc) (people : List PersonDesc)
    (venuesD : List VenueDesc) (sp : ℕ) :
    ((∃ e ∈ events, e.time_ranges = none) →
      prep_schedule events people venuesD sp
        = Except.error (LoadErr.keyError "time_ranges"))
    ∧ (∀ r, prep_schedule events people venuesD sp = Except.ok r →
        ∀ e ∈ events, e.time_ranges ≠ none
          ∧ ∀ n ∈ e.speakers, n ∈ people.map PersonDesc.name) := by
  constructor
  · intro hex
    have h1 : eventStartOf events = Except.error (LoadErr.keyError "time_ranges") := by
      unfold eventStartOf
      rw [collectStarts_error events hex]
    simp [prep_schedule, h1]
  · intro r hok e he
    cases hes : eventStartOf events with
    | error err =>
      rw [show prep_schedule events people venuesD sp = Except.error err
        from by simp [prep_schedule, hes]] at hok
      cases hok
    | ok event_start =>
      cases hpt : prepTalks event_start
          ((people.map (fun p => (p.name, p.id))).reverse) sp events with
      | error err =>
        rw [show prep_schedule events people venuesD sp = Except.error err
          from by simp [prep_schedule, hes, hpt]] at hok
        cases hok
      | ok talks =>
        have hmain := prepTalks_ok event_start
          ((people.map (fun p => (p.name, p.id))).reverse) sp events talks hpt e he
        refine ⟨hmain.1, ?_⟩
        intro n hn
        have hkey := hmain.2 n hn
        rw [List.map_reverse, List.mem_reverse, List.map_map] at hkey
        simpa using hkey

/-- The C5 counterexample venue: the only declared venue, with id 1. -/
def exC5venue : VenueDesc :=
  { id := 1, name := "V", capacity := 10, time_ranges := [{ rstart := 0, rend := 3600 }] }

/-- The C5 counterexample talk: `valid_venues = [99]` references a venue id
that is not declared. -/
def exC5event : EventDesc :=
  { id := 1, duration := 30, time_ranges := some [{ rstart := 0, rend := 3600 }],
    valid_venues := [99], speakers := [] }

/-- C5 counterexample: a descriptor whose talk references the undeclared
venue 99 loads successfully — `prep_schedule` performs no `valid_venues`
validation, so no load-time failure occurs. -/
theorem prep_schedule_accepts_undeclared_venue :
    (prep_schedule [exC5event] [] [exC5venue] 1).isOk = true
    ∧ exC5event.valid_venues = [99]
    ∧ [exC5venue].map VenueDesc.id = [1] := by
  refine ⟨by decide, by decide, by decide⟩

/-- The C5 witness event: its `time_ranges` key is missing. -/
def exC5badEvent : EventDesc :=
  { id := 2, duration := 30, time_ranges := none, valid_venues := [1], speakers := [] }

/-- Concrete instance of `prep_schedule_load_errors`: a talk without
`time_ranges` makes the load fail with `KeyError`. -/
theorem prep_schedule_load_errors_witness :
    prep_schedule [exC5badEvent] [] [] 1
      = Except.error (LoadErr.keyError "time_ranges") :=
  (prep_schedule_load_errors [exC5badEvent] [] [] 1).1 ⟨exC5badEvent, by decide, rfl⟩

/-- A Python talk dict held in `talk_data` (and in the caller's
`schedule_dict["talks"]`): the original descriptor record plus the keys
`schedule` injects (absent before the solve). -/
structure TalkDict where
  base : EventDesc
  slot : Option ℤ := none
  time : Option ℤ := none
  end_time : Option ℤ := none
  venue : Option ℕ := none
  attendees : Option (List ℕ) := none
  partial_attendees : Option (List ℕ) := none
deriving DecidableEq, Repr

/-- One element of the list `schedule_talks` returns:
`(slot, talk.id, venue.id, attendees, partial_attendees)`. -/
structure SolvedEntry where
  slot : ℤ
  talk_id : ℕ
  venue_id : ℕ
  attendees : List ℕ
  partial_attendees : List ℕ
deriving DecidableEq, Repr

/-- The body of the loop in `SlotMachine.schedule`: write `slot`, `time`,
`end_time` (`calc_time(event_start, slot + duration)`), `venue`,
`attendees` and `partial_attendees` into the talk's dict. -/
def apply_entry (talks_by_id : ℕ → Talk) (event_start : ℤ) (d : TalkDict)
    (e : SolvedEntry) : TalkDict :=
  { d with
    slot := some e.slot
    time := some (calc_time event_start e.slot)
    end_time := some (calc_time event_start
      (e.slot + ((talks_by_id e.talk_id).duration : ℤ)))
    venue := some e.venue_id
    attendees := some e.attendees
    partial_attendees := some e.partial_attendees }

/-- The whole mutation loop of `schedule` over the solved entries, on an
explicit heap (`addrOf` is `talk_data`: talk id to dict address). -/
def schedule_update (talks_by_id : ℕ → Talk) (event_start : ℤ) (addrOf : ℕ → ℕ)
    (h : ℕ → TalkDict) (solved : List SolvedEntry) : ℕ → TalkDict :=
  solved.foldl (fun h e => fun x =>
    if x = addrOf e.talk_id
      then apply_entry talks_by_id event_start (h (addrOf e.talk_id)) e
      else h x) h

/-- `talk_data[event["id"]] = event`: association of each talk's id with the
address of its (shared) dict, in descriptor order. -/
def talk_data_of (h : ℕ → TalkDict) (talkAddrs : List ℕ) : List (ℕ × ℕ) :=
  talkAddrs.map (fun a => ((h a).base.id, a))

/-- `SlotMachine.schedule`: mutate the dicts in place and return
`list(talk_data.values())` — the same addresses the caller's descriptor
holds. -/
def schedule_model (talks_by_id : ℕ → Talk) (event_start : ℤ) (h : ℕ → TalkDict)
    (talkAddrs : List ℕ) (addrOf : ℕ → ℕ) (solved : List SolvedEntry) :
    (ℕ → TalkDict) × List ℕ :=
  (schedule_update talks_by_id event_start addrOf h solved,
   (talk_data_of h talkAddrs).map Prod.snd)

theorem schedule_update_not_mem (talks_by_id : ℕ → Talk) (event_start : ℤ)
    (addrOf : ℕ → ℕ) (solved : List SolvedEntry) :
    ∀ (h : ℕ → TalkDict) (x : ℕ), x ∉ solved.map (fun e => addrOf e.talk_id) →
    schedule_update talks_by_id event_start addrOf h solved x = h x := by
  induction solved with
  | nil => intro h x _; rfl
  | cons d rest ih =>
    intro h x hx
    simp only [List.map_cons, List.mem_cons] at hx
    push_neg at hx
    have hstep : schedule_update talks_by_id event_start addrOf h (d :: rest)
        = schedule_update talks_by_id event_start addrOf
            (fun y => if y = addrOf d.talk_id
              then apply_entry talks_by_id event_start (h (addrOf d.talk_id)) d
              else h y) rest := rfl
    rw [hstep, ih _ x hx.2]
    simp [if_neg hx.1]

theorem schedule_update_mem (talks_by_id : ℕ → Talk) (event_start : ℤ)
    (addrOf : ℕ → ℕ) (solved : List SolvedEntry) :
    ∀ (h : ℕ → TalkDict) (e : SolvedEntry), e ∈ solved →
    (solved.map (fun e => addrOf e.talk_id)).Nodup →
    schedule_update talks_by_id event_start addrOf h solved (addrOf e.talk_id)
      = apply_entry talks_by_id event_start (h (addrOf e.talk_id)) e := by
  induction solved with
  | nil => intro h e he _; cases he
  | cons d rest ih =>
    intro h e he hnd
    simp only [List.map_cons, List.nodup_cons] at hnd
    obtain ⟨hd_not, hnd_rest⟩ := hnd
    have hstep : schedule_update talks_by_id event_start addrOf h (d :: rest)
        = schedule_update talks_by_id event_start addrOf
            (fun y => if y = addrOf d.talk_id
              then apply_entry talks_by_id event_start (h (addrOf d.talk_id)) d
              else h y) rest := rfl
    rcases List.mem_cons.mp he with rfl | hmem
    · rw [hstep, schedule_update_not_mem talks_by_id event_start addrOf rest _ _ hd_not]
      simp
    · have hne : addrOf e.talk_id ≠ addrOf d.talk_id := by
        intro heq
        exact hd_not (heq ▸ List.mem_map_of_mem (fun e => addrOf e.talk_id) hmem)
      rw [hstep, ih _ e hmem hnd_rest]
      simp [if_neg hne]

/-- Statement of C10: (1) the returned list is exactly the addresses of the
caller's talk dicts; (2) each solved entry's dict is mutated in place —
original keys kept, the six new keys set, with `end_time = time +
duration·5 minutes`; (3) every descriptor talk covered by the solution is so
augmented; (4) no other heap cell changes; (5) the `duration` stored at load
time is `ceil(minutes/5) + spacing`, i.e. it already includes the post-talk
spacing. -/
def ScheduleInPlaceClaim (talks_by_id : ℕ → Talk) (event_start : ℤ)
    (h0 : ℕ → TalkDict) (talkAddrs : List ℕ) (addrOf : ℕ → ℕ)
    (solved : List SolvedEntry) : Prop :=
  (schedule_model talks_by_id event_start h0 talkAddrs addrOf solved).2 = talkAddrs
  ∧ (∀ e ∈ solved,
      (schedule_model talks_by_id event_start h0 talkAddrs addrOf solved).1
          (addrOf e.talk_id)
        = apply_entry talks_by_id event_start (h0 (addrOf e.talk_id)) e
      ∧ ((schedule_model talks_by_id event_start h0 talkAddrs addrOf solved).1
          (addrOf e.talk_id)).base = (h0 (addrOf e.talk_id)).base
      ∧ ((schedule_model talks_by_id event_start h0 talkAddrs addrOf solved).1
          (addrOf e.talk_id)).end_time
        = some (calc_time event_start e.slot
            + ((talks_by_id e.talk_id).duration : ℤ) * ((SLOT_INCREMENT : ℤ) * 60)))
  ∧ (∀ a ∈ talkAddrs, ∃ e ∈ solved, e.talk_id = (h0 a).base.id
      ∧ (schedule_model talks_by_id event_start h0 talkAddrs addrOf solved).1 a
        = apply_entry talks_by_id event_start (h0 a) e)
  ∧ (∀ x, x ∉ solved.map (fun e => addrOf e.talk_id) →
      (schedule_model talks_by_id event_start h0 talkAddrs addrOf solved).1 x = h0 x)
  ∧ (∀ (pbn : List (String × ℕ)) (sp : ℕ) (ed : EventDesc) (t : Talk),
      prepTalk event_start pbn sp ed = Except.ok t →
      t.duration = ceilDivNat ed.duration SLOT_INCREMENT + sp)

/-- C10: `schedule` mutates its caller's in-memory descriptor in place; the
returned list holds the very same talk dicts, augmented with `slot`,
`time`, `end_time`, `venue`, `attendees` and `partial_attendees`, where
`end_time` is the start time plus `duration(t) · 5` minutes and
`duration(t)` (from `prep_schedule`) already includes the spacing slots. -/
theorem schedule_mutates_descriptor (talks_by_id : ℕ → Talk) (event_start : ℤ)
    (h0 : ℕ → TalkDict) (talkAddrs : List ℕ) (addrOf : ℕ → ℕ)
    (solved : List SolvedEntry)
    (hnd : (solved.map (fun e => addrOf e.talk_id)).Nodup)
    (haddr : ∀ a ∈ talkAddrs, addrOf ((h0 a).base.id) = a)
    (hcover : ∀ a ∈ talkAddrs, ∃ e ∈ solved, e.talk_id = (h0 a).base.id) :
    ScheduleInPlaceClaim talks_by_id event_start h0 talkAddrs addrOf solved := by
  refine ⟨?_, ?_, ?_, ?_, ?_⟩
  · simp only [schedule_model, talk_data_of, List.map_map]
    exact List.map_id talkAddrs
  · intro e he
    have hupd := schedule_update_mem talks_by_id event_start addrOf solved h0 e he hnd
    refine ⟨hupd, ?_, ?_⟩
    · show (schedule_update talks_by_id event_start addrOf h0 solved
        (addrOf e.talk_id)).base = _
      rw [hupd]
      rfl
    · show (schedule_update talks_by_id event_start addrOf h0 solved
        (addrOf e.talk_id)).end_time = _
      rw [hupd]
      show some (calc_time event_start
        (e.slot + ((talks_by_id e.talk_id).duration : ℤ))) = _
      unfold calc_time
      congr 1
      ring
  · intro a ha
    obtain ⟨e, hesol, hid⟩ := hcover a ha
    refine ⟨e, hesol, hid, ?_⟩
    have haddr_a : addrOf e.talk_id = a := by rw [hid]; exact haddr a ha
    have hupd := schedule_update_mem talks_by_id event_start addrOf solved h0 e hesol hnd
    rw [haddr_a] at hupd
    exact hupd
  · intro x hx
    exact schedule_update_not_mem talks_by_id event_start addrOf solved h0 x hx
  · intro pbn sp ed t hok
    exact (prepTalk_ok event_start pbn sp ed t hok).2.2

/-- The C10 witness heap: one talk dict (descriptor talk id 1) at every
address. -/
def exC10heap : ℕ → TalkDict := fun _ => { base := exC5event }

/-- The C10 witness lookup: talk 1 has slot-duration 7 (30 minutes plus one
spacing slot). -/
def exC10byId : ℕ → Talk := fun _ => { id := 1, duration := 7 }

/-- The C10 witness `talk_data`: talk 1 lives at address 0. -/
def exC10addrOf : ℕ → ℕ := fun _ => 0

/-- The C10 witness solved entry: talk 1 at slot 2 in venue 1. -/
def exC10entry : SolvedEntry :=
  { slot := 2, talk_id := 1, venue_id := 1, attendees := [5],
    partial_attendees := [5, 6] }

/-- Concrete instance of `schedule_mutates_descriptor`. -/
theorem schedule_mutates_descriptor_witness :
    ScheduleInPlaceClaim exC10byId 0 exC10heap [0] exC10addrOf [exC10entry] :=
  schedule_mutates_descriptor exC10byId 0 exC10heap [0] exC10addrOf [exC10entry]
    (by decide) (by decide) (by decide)
